import Mathlib

/-!
# DbUnify: the statement cache of `CManager/Core/Base`

A shallow embedding of `cache.c` (the direct-mapped, time-expiring statement
cache) and of the three mutating helpers of `Manager.c` that write to it.

Modelling conventions.

* A C string (`const char *`) is modelled by its contents: the characters
  before the terminating NUL, each as the `int` it is promoted to by
  `c = *str++` (`-128..127` where `char` is signed, `0..255` where it is
  unsigned), none of them `0`.
* `size_t` is a natural number below `2 ^ 64`; every `size_t` operation is
  reduced modulo `2 ^ 64`.
* `time_t` values are integers; `time(NULL)` is an input of the operation that
  calls it, and `now - timestamp` is the mathematical difference (signed
  overflow of `time_t` is undefined in C and does not occur for clock values).
* `char *` fields are `Option Nat`: `none` is `NULL`, `some a` is the address
  `a`.  The heap maps the address of every live `malloc` block to the string it
  holds.  `free` of a non-`NULL` address that is not live, and reading through
  such an address, are faults (undefined behaviour in C).
* `malloc` (inside `strdup`) is an input of the call: any function of the
  current heap that returns `NULL` or an address that is not live.
-/

namespace DbUnify

/-! ## Data model -/

/-- `#define CACHE_SIZE 100`. -/
abbrev CACHE_SIZE : Nat := 100

/-- `#define TTL 60`. -/
abbrev TTL : Int := 60

/-- Number of values of `size_t` (64-bit). -/
abbrev SIZE_MOD : Nat := 18446744073709551616

/-- Contents of a NUL-terminated C string: the characters before the NUL. -/
structure CStr where
  chars : List Int
  valid : ∀ c ∈ chars, c ≠ 0 ∧ -128 ≤ c ∧ c ≤ 255

instance : DecidableEq CStr := fun a b =>
  match a, b with
  | ⟨x, _⟩, ⟨y, _⟩ =>
    if h : x = y then isTrue (by subst h; rfl)
    else isFalse (fun e => h (congrArg CStr.chars e))

/-- Conversion of an `int` to `size_t`. -/
def to_size_t (c : Int) : Nat := (c % (SIZE_MOD : Int)).toNat

/-- Body of the loop of `hash`: `hash = ((hash << 5) + hash) + c;`. -/
def hash_step (hash : Nat) (c : Int) : Nat :=
  ((((hash <<< 5) % SIZE_MOD + hash) % SIZE_MOD) + to_size_t c) % SIZE_MOD

/-- The loop `while ((c = *str++)) { ... }` of `hash`, over the characters that
are left; the end of the list is the terminating NUL. -/
def hash_loop : List Int → Nat → Nat
  | [], hash => hash
  | c :: str, hash => if c = 0 then hash else hash_loop str (hash_step hash c)

/-- `static size_t hash(const char *str)`. -/
def hash (str : CStr) : Nat := hash_loop str.chars 5381

/-- The spec's recurrence `h = h*33 + c` seeded at 5381, in `size_t`
arithmetic. -/
def djb2 (s : CStr) : Nat :=
  s.chars.foldl (fun (h : Nat) (c : Int) => (((h : Int) * 33 + c) % (SIZE_MOD : Int)).toNat) 5381

/-- The local `index = hash(query) % CACHE_SIZE` of `cache_get` and
`cache_set`. -/
def slot_index (query : CStr) : Fin CACHE_SIZE :=
  ⟨hash query % CACHE_SIZE, Nat.mod_lt _ (by decide)⟩

/-! ## Memory model -/

/-- A `char *`: `none` is `NULL`, `some a` is the address `a`. -/
abbrev Ptr := Option Nat

/-- The heap: the string held by every live `malloc` block, by address. -/
abbrev Heap := Nat → Option CStr

/-- Undefined behaviour that the model detects. -/
inductive Fault where
  | invalid_free
  | invalid_read
  deriving DecidableEq, Repr

/-- `free(p)`: nothing for `NULL`, releases a live block, and is a fault on an
address that is not live (never allocated, or already freed). -/
def free (h : Heap) (p : Ptr) : Except Fault Heap :=
  match p with
  | none => .ok h
  | some a =>
    match h a with
    | none => .error .invalid_free
    | some _ => .ok (Function.update h a none)

/-- The behaviour of `malloc` at one call: `NULL` (`none`) or an address that
is not live in the heap it is called on. -/
structure Allocator where
  pick : Heap → Option Nat
  fresh : ∀ h a, pick h = some a → h a = none

/-- `strdup(s)`: the new pointer (`NULL` when the allocation fails) and the
heap after the call. -/
def strdup (m : Allocator) (h : Heap) (s : CStr) : Ptr × Heap :=
  match m.pick h with
  | none => (none, h)
  | some a => (some a, Function.update h a (some s))

/-- The string a pointer refers to, when it refers to a live block. -/
def deref (h : Heap) (p : Ptr) : Option CStr :=
  match p with
  | none => none
  | some a => h a

/-! ## cache.c -/

/-- `struct CacheEntry`. -/
structure CacheEntry where
  query : Ptr
  result : Ptr
  timestamp : Int
  deriving DecidableEq

/-- The program state the cache works on: the global array `cache` and the
heap. -/
structure State where
  cache : Fin CACHE_SIZE → CacheEntry
  heap : Heap

/-- The static initialiser `{ { NULL, NULL, 0 } }` of `cache`. -/
def cache_static : Fin CACHE_SIZE → CacheEntry := fun _ => ⟨none, none, 0⟩

/-- `void init_cache()`. -/
def init_cache (st : State) : State :=
  { st with
    cache := (List.finRange CACHE_SIZE).foldl
      (fun c i => Function.update c i { c i with query := none, result := none })
      st.cache }

/-- Body of the loop of `free_cache` at index `i`. -/
def free_cache_step (st : State) (i : Fin CACHE_SIZE) : Except Fault State :=
  match free st.heap (st.cache i).query with
  | .error e => .error e
  | .ok h1 =>
    match free h1 (st.cache i).result with
    | .error e => .error e
    | .ok h2 => .ok { st with heap := h2 }

/-- The loop of `free_cache` over the indices that are left. -/
def free_cache_loop : List (Fin CACHE_SIZE) → State → Except Fault State
  | [], st => .ok st
  | i :: is, st =>
    match free_cache_step st i with
    | .error e => .error e
    | .ok st1 => free_cache_loop is st1

/-- `void free_cache()`. -/
def free_cache (st : State) : Except Fault State :=
  free_cache_loop (List.finRange CACHE_SIZE) st

/-- `char *cache_get(const char *query)`, with `now` the value of
`time(NULL)`: the returned pointer and the state after the call. -/
def cache_get (st : State) (query : CStr) (now : Int) : Except Fault (Ptr × State) :=
  let index := slot_index query
  match (st.cache index).query with
  | none => .ok (none, st)
  | some a =>
    match st.heap a with
    | none => .error .invalid_read
    | some s =>
      if s = query then
        if now - (st.cache index).timestamp < TTL then
          .ok ((st.cache index).result, st)
        else
          match free st.heap (st.cache index).query with
          | .error e => .error e
          | .ok h1 =>
            match free h1 (st.cache index).result with
            | .error e => .error e
            | .ok h2 =>
              .ok (none,
                { cache := Function.update st.cache index
                    { st.cache index with query := none, result := none },
                  heap := h2 })
      else .ok (none, st)

/-- `void cache_set(const char *query, const char *result)`, with `now` the
value of `time(NULL)` and `mq`, `mr` the behaviour of `malloc` inside the two
`strdup` calls. -/
def cache_set (st : State) (query result : CStr) (now : Int) (mq mr : Allocator) :
    Except Fault State :=
  let index := slot_index query
  match free st.heap (st.cache index).query with
  | .error e => .error e
  | .ok h1 =>
    match free h1 (st.cache index).result with
    | .error e => .error e
    | .ok h2 =>
      let q := strdup mq h2 query
      let r := strdup mr q.2 result
      .ok { cache := Function.update st.cache index ⟨q.1, r.1, now⟩, heap := r.2 }

/-- What a caller of `cache_get` observes: `none` for a miss (`NULL`), else the
string the returned pointer refers to. -/
def lookup (st : State) (query : CStr) (now : Int) : Except Fault (Option CStr) :=
  match cache_get st query now with
  | .error e => .error e
  | .ok (p, st1) => .ok (deref st1.heap p)

/-- States every slot of which owns its strings: each non-`NULL` field refers
to a live block, and no block is referred to by two fields. -/
structure WF (st : State) : Prop where
  query_live : ∀ i a, (st.cache i).query = some a → ∃ s, st.heap a = some s
  result_live : ∀ i a, (st.cache i).result = some a → ∃ s, st.heap a = some s
  query_inj : ∀ i j a, (st.cache i).query = some a → (st.cache j).query = some a → i = j
  result_inj : ∀ i j a, (st.cache i).result = some a → (st.cache j).result = some a → i = j
  query_ne_result : ∀ i j a, (st.cache i).query = some a → (st.cache j).result ≠ some a

/-- States reached from `init_cache` by calls of `cache_set` and
`cache_get`. -/
inductive Reachable : State → Prop where
  | init (st : State) : Reachable (init_cache st)
  | set {st st1 : State} (query result : CStr) (now : Int) (mq mr : Allocator) :
      Reachable st → cache_set st query result now mq mr = .ok st1 → Reachable st1
  | get {st st1 : State} (query : CStr) (now : Int) (p : Ptr) :
      Reachable st → cache_get st query now = .ok (p, st1) → Reachable st1

/-- A slot with neither key nor value. -/
def CacheEntry.empty (e : CacheEntry) : Prop := e.query = none ∧ e.result = none

/-- A slot with both key and value. -/
def CacheEntry.populated (e : CacheEntry) : Prop := e.query ≠ none ∧ e.result ≠ none

/-! ## Manager.c -/

/-- `SQLITE_OK` of `sqlite3.h`. -/
abbrev SQLITE_OK : Int := 0

/-- `EXIT_FAILURE` of `stdlib.h`. -/
abbrev EXIT_FAILURE : Int := 1

/-- `strlen`. -/
def strlen (s : CStr) : Nat := s.chars.length

/-- The empty string literal `""`. -/
def CStr.nil : CStr := ⟨[], by simp⟩

/-- Concatenation of string contents. -/
def CStr.append (a b : CStr) : CStr :=
  ⟨a.chars ++ b.chars, by
    intro c hc
    rcases List.mem_append.mp hc with h | h
    · exact a.valid c h
    · exact b.valid c h⟩

/-- The first `n` characters. -/
def CStr.take (n : Nat) (a : CStr) : CStr :=
  ⟨a.chars.take n, fun c hc => a.valid c (List.mem_of_mem_take hc)⟩

/-- An ASCII string literal of the source. -/
def CStr.lit (s : String) : CStr :=
  ⟨(s.toList.map (fun c => (c.toNat : Int))).filter (fun c => decide (0 < c ∧ c < 128)), by
    intro c hc
    have h := (List.mem_filter.mp hc).2
    simp only [decide_eq_true_eq] at h
    omega⟩

/-- `snprintf(buf, size, fmt, ...)` for a format made of literals and `%s`:
the pieces in order, cut to `size - 1` characters. -/
def snprintf (size : Nat) (pieces : List CStr) : CStr :=
  CStr.take (size - 1) (pieces.foldl CStr.append CStr.nil)

/-- `execute_query(db, query, NULL, NULL)`: the code `sqlite3_exec` returns for
the statement, which `execute_query` hands back (after printing the error
message when it is not `SQLITE_OK`). -/
def execute_query (exec : CStr → Int) (query : CStr) : Int := exec query

/-- `int insert_row(sqlite3 *db, const char *table_name, const char *values)`,
with `now` the clock read inside `cache_set`, `mb` the behaviour of the `malloc`
of the buffer, `mq` and `mr` those of the two `strdup` calls, and `exec` the
code `sqlite3_exec` returns for a statement. -/
def insert_row (st : State) (table_name values : CStr) (now : Int)
    (mb mq mr : Allocator) (exec : CStr → Int) : Except Fault (Int × State) :=
  let query_size := (strlen table_name + strlen values + 30) % SIZE_MOD
  match mb.pick st.heap with
  | none => .ok (EXIT_FAILURE, st)
  | some a =>
    let query := snprintf query_size
      [CStr.lit "INSERT INTO ", table_name, CStr.lit " VALUES (", values, CStr.lit ");"]
    let st1 : State := { st with heap := Function.update st.heap a (some query) }
    match cache_set st1 query CStr.nil now mq mr with
    | .error e => .error e
    | .ok st2 =>
      let result := execute_query exec query
      match free st2.heap (some a) with
      | .error e => .error e
      | .ok h => .ok (result, { st2 with heap := h })

/-- `int delete_row(sqlite3 *db, const char *table_name, const char *condition)`. -/
def delete_row (st : State) (table_name condition : CStr) (now : Int)
    (mb mq mr : Allocator) (exec : CStr → Int) : Except Fault (Int × State) :=
  let query_size := (strlen table_name + strlen condition + 30) % SIZE_MOD
  match mb.pick st.heap with
  | none => .ok (EXIT_FAILURE, st)
  | some a =>
    let query := snprintf query_size
      [CStr.lit "DELETE FROM ", table_name, CStr.lit " WHERE ", condition, CStr.lit ";"]
    let st1 : State := { st with heap := Function.update st.heap a (some query) }
    match cache_set st1 query CStr.nil now mq mr with
    | .error e => .error e
    | .ok st2 =>
      let result := execute_query exec query
      match free st2.heap (some a) with
      | .error e => .error e
      | .ok h => .ok (result, { st2 with heap := h })

/-- `int update_row(sqlite3 *db, const char *table_name, const char *values,
const char *condition)`. -/
def update_row (st : State) (table_name values condition : CStr) (now : Int)
    (mb mq mr : Allocator) (exec : CStr → Int) : Except Fault (Int × State) :=
  let query_size := (strlen table_name + strlen values + strlen condition + 50) % SIZE_MOD
  match mb.pick st.heap with
  | none => .ok (EXIT_FAILURE, st)
  | some a =>
    let query := snprintf query_size
      [CStr.lit "UPDATE ", table_name, CStr.lit " SET ", values, CStr.lit " WHERE ",
        condition, CStr.lit ";"]
    let st1 : State := { st with heap := Function.update st.heap a (some query) }
    match cache_set st1 query CStr.nil now mq mr with
    | .error e => .error e
    | .ok st2 =>
      let result := execute_query exec query
      match free st2.heap (some a) with
      | .error e => .error e
      | .ok h => .ok (result, { st2 with heap := h })

/-! ## Auxiliary definitions for the statements -/

/-- The heap after a successful `free(p)`. -/
def release (h : Heap) (p : Ptr) : Heap :=
  match p with
  | none => h
  | some a => Function.update h a none

/-- The heap `cache_set` duplicates the new strings into: the old strings of
the addressed slot are gone. -/
def heap_after_evict (st : State) (index : Fin CACHE_SIZE) : Heap :=
  release (release st.heap (st.cache index).query) (st.cache index).result

/-- The state `cache_set` leaves when both `free` calls succeed. -/
def set_post (st : State) (query result : CStr) (now : Int) (mq mr : Allocator) : State :=
  let q := strdup mq (heap_after_evict st (slot_index query)) query
  let r := strdup mr q.2 result
  { cache := Function.update st.cache (slot_index query) ⟨q.1, r.1, now⟩, heap := r.2 }

/-- The state `cache_get` leaves after it has cleared a stale entry. -/
def expire_post (st : State) (index : Fin CACHE_SIZE) : State :=
  { cache := Function.update st.cache index
      { st.cache index with query := none, result := none },
    heap := heap_after_evict st index }

/-- The allocator that hands out the address `n` when it is not live and fails
otherwise. -/
def alloc_at (n : Nat) : Allocator :=
  ⟨fun h => if (h n).isNone then some n else none, by
    intro h a e
    by_cases hn : (h n).isNone = true
    · simp [hn] at e; subst e; simpa using hn
    · simp [hn] at e⟩

/-- The allocator that always fails. -/
def alloc_fail : Allocator := ⟨fun _ => none, by simp⟩

/-- The state at program start: the static table and no live block. -/
def st0 : State := ⟨cache_static, fun _ => none⟩

/-- The lookup that makes `cache_get` write: the addressed slot holds the
looked-up key and the entry is `TTL` old or older. -/
def stale_match (st : State) (k : CStr) (now : Int) : Prop :=
  ∃ a, (st.cache (slot_index k)).query = some a ∧ st.heap a = some k ∧
    TTL ≤ now - (st.cache (slot_index k)).timestamp

/-- The key `"A"`. -/
def kA : CStr := ⟨[65], by decide⟩

/-- The key `"AT"`, which has the slot of `"A"`. -/
def kAT : CStr := ⟨[65, 84], by decide⟩

/-- The key `"B"`. -/
def kB : CStr := ⟨[66], by decide⟩

/-- The value `"1"`. -/
def val1 : CStr := ⟨[49], by decide⟩

/-- The value `"2"`. -/
def val2 : CStr := ⟨[50], by decide⟩

/-- The steps `insert_row`, `delete_row` and `update_row` share once the size
is computed: `malloc`, `snprintf`, `cache_set(query, "")`, `execute_query`,
`free(query)`. -/
def run_statement (st : State) (query_size : Nat) (pieces : List CStr) (now : Int)
    (mb mq mr : Allocator) (exec : CStr → Int) : Except Fault (Int × State) :=
  match mb.pick st.heap with
  | none => .ok (EXIT_FAILURE, st)
  | some a =>
    let query := snprintf query_size pieces
    let st1 : State := { st with heap := Function.update st.heap a (some query) }
    match cache_set st1 query CStr.nil now mq mr with
    | .error e => .error e
    | .ok st2 =>
      let result := execute_query exec query
      match free st2.heap (some a) with
      | .error e => .error e
      | .ok h => .ok (result, { st2 with heap := h })

/-- The statement text `insert_row` formats into its buffer. -/
def insert_text (table_name values : CStr) : CStr :=
  snprintf ((strlen table_name + strlen values + 30) % SIZE_MOD)
    [CStr.lit "INSERT INTO ", table_name, CStr.lit " VALUES (", values, CStr.lit ");"]

/-- The statement text `delete_row` formats into its buffer. -/
def delete_text (table_name condition : CStr) : CStr :=
  snprintf ((strlen table_name + strlen condition + 30) % SIZE_MOD)
    [CStr.lit "DELETE FROM ", table_name, CStr.lit " WHERE ", condition, CStr.lit ";"]

/-- The statement text `update_row` formats into its buffer. -/
def update_text (table_name values condition : CStr) : CStr :=
  snprintf ((strlen table_name + strlen values + strlen condition + 50) % SIZE_MOD)
    [CStr.lit "UPDATE ", table_name, CStr.lit " SET ", values, CStr.lit " WHERE ",
      condition, CStr.lit ";"]

/-- The state in which the statement buffer at address `a` holds `text`. -/
def with_buffer (st : State) (a : Nat) (text : CStr) : State :=
  { st with heap := Function.update st.heap a (some text) }

/-- A call of one of the three mutating helpers of `Manager.c`, with its string
arguments. -/
inductive Mutation where
  | insert (table_name values : CStr)
  | delete (table_name condition : CStr)
  | update (table_name values condition : CStr)

/-- The helper the call runs. -/
def Mutation.run (m : Mutation) (st : State) (now : Int) (mb mq mr : Allocator)
    (exec : CStr → Int) : Except Fault (Int × State) :=
  match m with
  | .insert t v => insert_row st t v now mb mq mr exec
  | .delete t c => delete_row st t c now mb mq mr exec
  | .update t v c => update_row st t v c now mb mq mr exec

/-- The statement text the call formats. -/
def Mutation.text (m : Mutation) : CStr :=
  match m with
  | .insert t v => insert_text t v
  | .delete t c => delete_text t c
  | .update t v c => update_text t v c

/-- The state after `cache_set("B", "2")` at time 100 on the start state, both
duplications succeeding. -/
def st_B : State := set_post st0 kB val2 100 (alloc_at 1) (alloc_at 2)

/-- The state after `cache_set("AT", "2")` at time 100 on the start state, both
duplications succeeding. -/
def st_AT : State := set_post st0 kAT val2 100 (alloc_at 1) (alloc_at 2)

/-- The table name `"t"`. -/
def kT : CStr := ⟨[116], by decide⟩

/-! ## Hashing -/

theorem to_size_t_lt (c : Int) : to_size_t c < SIZE_MOD := by
  unfold to_size_t
  have h1 : 0 ≤ c % (SIZE_MOD : Int) := Int.emod_nonneg _ (by decide)
  have h2 : c % (SIZE_MOD : Int) < (SIZE_MOD : Int) := Int.emod_lt_of_pos _ (by decide)
  omega

theorem hash_step_eq (h : Nat) (c : Int) :
    (hash_step h c : Int) = ((h : Int) * 33 + c) % (SIZE_MOD : Int) := by
  unfold hash_step to_size_t
  have h1 : 0 ≤ c % (SIZE_MOD : Int) := Int.emod_nonneg _ (by decide)
  rw [Nat.shiftLeft_eq]
  push_cast
  omega

/-! ## Heap lemmas -/

theorem free_eq_release {h : Heap} {p : Ptr} (hl : ∀ a, p = some a → ∃ s, h a = some s) :
    free h p = .ok (release h p) := by
  cases p with
  | none => rfl
  | some a =>
    obtain ⟨s, hs⟩ := hl a rfl
    simp [free, release, hs]

theorem free_dead {h : Heap} {a : Nat} (hd : h a = none) :
    free h (some a) = .error .invalid_free := by
  simp [free, hd]

theorem release_of_ne {h : Heap} {p : Ptr} {b : Nat} (hne : p ≠ some b) :
    release h p b = h b := by
  cases p with
  | none => rfl
  | some a =>
    have : b ≠ a := fun e => hne (by rw [e])
    simp [release, Function.update_noteq this]

theorem release_self {h : Heap} {a : Nat} : release h (some a) a = none := by
  simp [release]

theorem release_dead {h : Heap} {p : Ptr} {b : Nat} (hd : h b = none) :
    release h p b = none := by
  by_cases e : p = some b
  · subst e; exact release_self
  · rw [release_of_ne e]; exact hd

theorem strdup_some {m : Allocator} {h : Heap} {s : CStr} {a : Nat}
    (e : (strdup m h s).1 = some a) :
    h a = none ∧ (strdup m h s).2 = Function.update h a (some s) := by
  unfold strdup at e ⊢
  cases hp : m.pick h with
  | none => simp [hp] at e
  | some b =>
    simp only [hp, Option.some.injEq] at e ⊢
    subst e
    exact ⟨m.fresh h b hp, rfl⟩

theorem strdup_none {m : Allocator} {h : Heap} {s : CStr}
    (e : (strdup m h s).1 = none) : (strdup m h s).2 = h := by
  unfold strdup at e ⊢
  cases hp : m.pick h with
  | none => rfl
  | some b => simp [hp] at e

theorem strdup_at_new {m : Allocator} {h : Heap} {s : CStr} {a : Nat}
    (e : (strdup m h s).1 = some a) : (strdup m h s).2 a = some s := by
  rw [(strdup_some e).2]; simp

theorem strdup_of_ne {m : Allocator} {h : Heap} {s : CStr} {b : Nat}
    (hne : (strdup m h s).1 ≠ some b) : (strdup m h s).2 b = h b := by
  cases e : (strdup m h s).1 with
  | none => rw [strdup_none e]
  | some a =>
    rw [(strdup_some e).2]
    have : b ≠ a := fun x => hne (by rw [e, x])
    exact Function.update_noteq this _ _

theorem strdup_live {m : Allocator} {h : Heap} {s x : CStr} {b : Nat}
    (hb : h b = some x) : (strdup m h s).1 ≠ some b ∧ (strdup m h s).2 b = some x := by
  have hne : (strdup m h s).1 ≠ some b := by
    intro e
    have := (strdup_some e).1
    rw [hb] at this
    exact Option.noConfusion this
  exact ⟨hne, by rw [strdup_of_ne hne]; exact hb⟩

/-! ## Ownership invariant -/

theorem WF.other_slot {st : State} (hwf : WF st) {i j : Fin CACHE_SIZE} (hij : j ≠ i)
    {c : Nat} (hc : (st.cache j).query = some c ∨ (st.cache j).result = some c) :
    (∃ x, st.heap c = some x) ∧ (st.cache i).query ≠ some c ∧ (st.cache i).result ≠ some c := by
  rcases hc with hc | hc
  · refine ⟨hwf.query_live j c hc, ?_, ?_⟩
    · intro e; exact hij (hwf.query_inj j i c hc e)
    · exact hwf.query_ne_result j i c hc
  · refine ⟨hwf.result_live j c hc, ?_, ?_⟩
    · intro e; exact hwf.query_ne_result i j c e hc
    · intro e; exact hij (hwf.result_inj j i c hc e)

theorem evict_of_ne {st : State} {i : Fin CACHE_SIZE} {c : Nat}
    (h1 : (st.cache i).query ≠ some c) (h2 : (st.cache i).result ≠ some c) :
    heap_after_evict st i c = st.heap c := by
  unfold heap_after_evict
  rw [release_of_ne h2, release_of_ne h1]

theorem evict_dead {st : State} {i : Fin CACHE_SIZE} {c : Nat} (hd : st.heap c = none) :
    heap_after_evict st i c = none :=
  release_dead (release_dead hd)

theorem evict_query {st : State} {i : Fin CACHE_SIZE} {c : Nat}
    (h1 : (st.cache i).query = some c) : heap_after_evict st i c = none := by
  unfold heap_after_evict
  apply release_dead
  rw [h1]
  exact release_self

theorem evict_result {st : State} {i : Fin CACHE_SIZE} {c : Nat}
    (h1 : (st.cache i).result = some c) : heap_after_evict st i c = none := by
  unfold heap_after_evict
  rw [h1]
  exact release_self

theorem WF.free_both {st : State} (hwf : WF st) (i : Fin CACHE_SIZE) :
    free st.heap (st.cache i).query = .ok (release st.heap (st.cache i).query) ∧
    free (release st.heap (st.cache i).query) (st.cache i).result
      = .ok (heap_after_evict st i) := by
  refine ⟨free_eq_release (hwf.query_live i), free_eq_release ?_⟩
  intro a ha
  obtain ⟨x, hx⟩ := hwf.result_live i a ha
  refine ⟨x, ?_⟩
  rw [release_of_ne (fun e => hwf.query_ne_result i i a e ha)]
  exact hx

/-! ## cache_set -/

theorem cache_set_ok {st : State} (hwf : WF st) (k v : CStr) (now : Int) (mq mr : Allocator) :
    cache_set st k v now mq mr = .ok (set_post st k v now mq mr) := by
  unfold cache_set
  simp only [(hwf.free_both (slot_index k)).1, (hwf.free_both (slot_index k)).2]
  rfl

theorem set_post_at (st : State) (k v : CStr) (now : Int) (mq mr : Allocator) :
    (set_post st k v now mq mr).cache (slot_index k) =
      ⟨(strdup mq (heap_after_evict st (slot_index k)) k).1,
       (strdup mr (strdup mq (heap_after_evict st (slot_index k)) k).2 v).1, now⟩ := by
  simp [set_post]

theorem set_post_other (st : State) (k v : CStr) (now : Int) (mq mr : Allocator)
    {j : Fin CACHE_SIZE} (hj : j ≠ slot_index k) :
    (set_post st k v now mq mr).cache j = st.cache j := by
  simp [set_post, Function.update_noteq hj]

theorem set_post_query {st : State} {k v : CStr} {now : Int} {mq mr : Allocator} {a : Nat}
    (e : ((set_post st k v now mq mr).cache (slot_index k)).query = some a) :
    (set_post st k v now mq mr).heap a = some k ∧ heap_after_evict st (slot_index k) a = none
    ∧ ((set_post st k v now mq mr).cache (slot_index k)).result ≠ some a := by
  rw [set_post_at] at e ⊢
  simp only at e ⊢
  have h1 := strdup_at_new e
  have h2 := strdup_live (m := mr) (s := v) h1
  exact ⟨h2.2, (strdup_some e).1, h2.1⟩

theorem set_post_result {st : State} {k v : CStr} {now : Int} {mq mr : Allocator} {b : Nat}
    (e : ((set_post st k v now mq mr).cache (slot_index k)).result = some b) :
    (set_post st k v now mq mr).heap b = some v ∧ heap_after_evict st (slot_index k) b = none := by
  rw [set_post_at] at e
  simp only at e
  refine ⟨strdup_at_new e, ?_⟩
  have h1 := (strdup_some e).1
  by_cases hq : (strdup mq (heap_after_evict st (slot_index k)) k).1 = some b
  · exact (strdup_some hq).1
  · rw [strdup_of_ne hq] at h1; exact h1

theorem set_post_heap_live {st : State} {k v : CStr} {now : Int} {mq mr : Allocator}
    {c : Nat} {x : CStr} (hx : heap_after_evict st (slot_index k) c = some x) :
    (set_post st k v now mq mr).heap c = some x :=
  (strdup_live (strdup_live hx).2).2

theorem set_post_heap_other {st : State} (hwf : WF st) {k v : CStr} {now : Int}
    {mq mr : Allocator} {j : Fin CACHE_SIZE} (hj : j ≠ slot_index k) {c : Nat}
    (hc : (st.cache j).query = some c ∨ (st.cache j).result = some c) :
    (set_post st k v now mq mr).heap c = st.heap c := by
  obtain ⟨⟨x, hx⟩, h1, h2⟩ := hwf.other_slot hj hc
  rw [hx]
  apply set_post_heap_live
  rw [evict_of_ne h1 h2]
  exact hx

theorem set_post_wf {st : State} (hwf : WF st) (k v : CStr) (now : Int) (mq mr : Allocator) :
    WF (set_post st k v now mq mr) := by
  have key : ∀ j, j ≠ slot_index k → ∀ c,
      ((set_post st k v now mq mr).cache j).query = some c ∨
      ((set_post st k v now mq mr).cache j).result = some c →
      (∃ x, heap_after_evict st (slot_index k) c = some x) := by
    intro j hj c hc
    rw [set_post_other st k v now mq mr hj] at hc
    obtain ⟨⟨x, hx⟩, h1, h2⟩ := hwf.other_slot hj hc
    exact ⟨x, by rw [evict_of_ne h1 h2]; exact hx⟩
  have clash : ∀ c, heap_after_evict st (slot_index k) c = none →
      (∃ x, heap_after_evict st (slot_index k) c = some x) → False := by
    intro c h1 ⟨x, h2⟩
    rw [h1] at h2
    exact Option.noConfusion h2
  constructor
  · intro i a ha
    by_cases hi : i = slot_index k
    · subst hi; exact ⟨k, (set_post_query ha).1⟩
    · obtain ⟨x, hx⟩ := key i hi a (Or.inl ha)
      exact ⟨x, set_post_heap_live hx⟩
  · intro i a ha
    by_cases hi : i = slot_index k
    · subst hi; exact ⟨v, (set_post_result ha).1⟩
    · obtain ⟨x, hx⟩ := key i hi a (Or.inr ha)
      exact ⟨x, set_post_heap_live hx⟩
  · intro i j a hi hj
    by_cases ei : i = slot_index k
    · by_cases ej : j = slot_index k
      · rw [ei, ej]
      · subst ei
        exact (clash a (set_post_query hi).2.1 (key j ej a (Or.inl hj))).elim
    · by_cases ej : j = slot_index k
      · subst ej
        exact (clash a (set_post_query hj).2.1 (key i ei a (Or.inl hi))).elim
      · rw [set_post_other st k v now mq mr ei] at hi
        rw [set_post_other st k v now mq mr ej] at hj
        exact hwf.query_inj i j a hi hj
  · intro i j a hi hj
    by_cases ei : i = slot_index k
    · by_cases ej : j = slot_index k
      · rw [ei, ej]
      · subst ei
        exact (clash a (set_post_result hi).2 (key j ej a (Or.inr hj))).elim
    · by_cases ej : j = slot_index k
      · subst ej
        exact (clash a (set_post_result hj).2 (key i ei a (Or.inr hi))).elim
      · rw [set_post_other st k v now mq mr ei] at hi
        rw [set_post_other st k v now mq mr ej] at hj
        exact hwf.result_inj i j a hi hj
  · intro i j a hi hj
    by_cases ei : i = slot_index k
    · by_cases ej : j = slot_index k
      · subst ei; subst ej
        exact (set_post_query hi).2.2 hj
      · subst ei
        exact clash a (set_post_query hi).2.1 (key j ej a (Or.inr hj))
    · by_cases ej : j = slot_index k
      · subst ej
        exact clash a (set_post_result hj).2 (key i ei a (Or.inl hi))
      · rw [set_post_other st k v now mq mr ei] at hi
        rw [set_post_other st k v now mq mr ej] at hj
        exact hwf.query_ne_result i j a hi hj

/-! ## cache_get -/

theorem cache_get_empty {st : State} {k : CStr} (now : Int)
    (hq : (st.cache (slot_index k)).query = none) :
    cache_get st k now = .ok (none, st) := by
  simp [cache_get, hq]

theorem cache_get_other {st : State} {k s : CStr} (now : Int) {a : Nat}
    (hq : (st.cache (slot_index k)).query = some a) (hs : st.heap a = some s) (hne : s ≠ k) :
    cache_get st k now = .ok (none, st) := by
  simp [cache_get, hq, hs, hne]

theorem cache_get_fresh {st : State} {k : CStr} {now : Int} {a : Nat}
    (hq : (st.cache (slot_index k)).query = some a) (hs : st.heap a = some k)
    (ht : now - (st.cache (slot_index k)).timestamp < TTL) :
    cache_get st k now = .ok ((st.cache (slot_index k)).result, st) := by
  simp [cache_get, hq, hs, ht]

theorem cache_get_stale {st : State} (hwf : WF st) {k : CStr} {now : Int} {a : Nat}
    (hq : (st.cache (slot_index k)).query = some a) (hs : st.heap a = some k)
    (ht : TTL ≤ now - (st.cache (slot_index k)).timestamp) :
    cache_get st k now = .ok (none, expire_post st (slot_index k)) := by
  have h1 := (hwf.free_both (slot_index k)).1
  have h2 := (hwf.free_both (slot_index k)).2
  rw [hq] at h1 h2
  have ht2 : ¬ now - (st.cache (slot_index k)).timestamp < TTL := not_lt.mpr ht
  simp only [cache_get, hq, hs, ht2, h1, h2, if_true, if_false]
  rfl

theorem expire_post_wf {st : State} (hwf : WF st) (i : Fin CACHE_SIZE) :
    WF (expire_post st i) := by
  have slot : ∀ j, j ≠ i → (expire_post st i).cache j = st.cache j := by
    intro j hj; simp [expire_post, Function.update_noteq hj]
  have qi : ((expire_post st i).cache i).query = none := by simp [expire_post]
  have ri : ((expire_post st i).cache i).result = none := by simp [expire_post]
  have live : ∀ j, j ≠ i → ∀ c,
      (st.cache j).query = some c ∨ (st.cache j).result = some c →
      ∃ x, (expire_post st i).heap c = some x := by
    intro j hj c hc
    obtain ⟨⟨x, hx⟩, h1, h2⟩ := hwf.other_slot hj hc
    exact ⟨x, by show heap_after_evict st i c = some x; rw [evict_of_ne h1 h2]; exact hx⟩
  constructor
  · intro j a ha
    by_cases hj : j = i
    · subst hj; rw [qi] at ha; exact Option.noConfusion ha
    · rw [slot j hj] at ha; exact live j hj a (Or.inl ha)
  · intro j a ha
    by_cases hj : j = i
    · subst hj; rw [ri] at ha; exact Option.noConfusion ha
    · rw [slot j hj] at ha; exact live j hj a (Or.inr ha)
  · intro j l a hj hl
    by_cases ej : j = i
    · subst ej; rw [qi] at hj; exact Option.noConfusion hj
    · by_cases el : l = i
      · subst el; rw [qi] at hl; exact Option.noConfusion hl
      · rw [slot j ej] at hj; rw [slot l el] at hl
        exact hwf.query_inj j l a hj hl
  · intro j l a hj hl
    by_cases ej : j = i
    · subst ej; rw [ri] at hj; exact Option.noConfusion hj
    · by_cases el : l = i
      · subst el; rw [ri] at hl; exact Option.noConfusion hl
      · rw [slot j ej] at hj; rw [slot l el] at hl
        exact hwf.result_inj j l a hj hl
  · intro j l a hj hl
    by_cases ej : j = i
    · subst ej; rw [qi] at hj; exact Option.noConfusion hj
    · by_cases el : l = i
      · subst el; rw [ri] at hl; exact Option.noConfusion hl
      · rw [slot j ej] at hj; rw [slot l el] at hl
        exact hwf.query_ne_result j l a hj hl

/-- Under the ownership invariant `cache_get` returns, and leaves either the
state it found or the state with the addressed slot cleared. -/
theorem cache_get_cases {st : State} (hwf : WF st) (k : CStr) (now : Int) :
    (∃ p, cache_get st k now = .ok (p, st)) ∨
    ((∃ a, (st.cache (slot_index k)).query = some a ∧ st.heap a = some k) ∧
      TTL ≤ now - (st.cache (slot_index k)).timestamp ∧
      cache_get st k now = .ok (none, expire_post st (slot_index k))) := by
  cases hq : (st.cache (slot_index k)).query with
  | none => exact Or.inl ⟨none, cache_get_empty now hq⟩
  | some a =>
    obtain ⟨s, hs⟩ := hwf.query_live _ a hq
    by_cases hk : s = k
    · subst hk
      by_cases ht : now - (st.cache (slot_index s)).timestamp < TTL
      · exact Or.inl ⟨_, cache_get_fresh hq hs ht⟩
      · exact Or.inr ⟨⟨a, rfl, hs⟩, not_lt.mp ht, cache_get_stale hwf hq hs (not_lt.mp ht)⟩
    · exact Or.inl ⟨none, cache_get_other now hq hs hk⟩

theorem cache_get_wf {st st1 : State} (hwf : WF st) {k : CStr} {now : Int} {p : Ptr}
    (h : cache_get st k now = .ok (p, st1)) : WF st1 := by
  rcases cache_get_cases hwf k now with ⟨p1, h1⟩ | ⟨_, _, h1⟩
  · rw [h1] at h
    injection h with h
    injection h with _ h
    rw [← h]; exact hwf
  · rw [h1] at h
    injection h with h
    injection h with _ h
    rw [← h]; exact expire_post_wf hwf _

/-! ## init_cache -/

theorem init_loop_at (l : List (Fin CACHE_SIZE)) (c : Fin CACHE_SIZE → CacheEntry)
    (i : Fin CACHE_SIZE) :
    (l.foldl (fun c i => Function.update c i { c i with query := none, result := none }) c) i
      = if i ∈ l then { c i with query := none, result := none } else c i := by
  induction l generalizing c with
  | nil => simp
  | cons a l ih =>
    rw [List.foldl_cons, ih]
    by_cases hia : i = a
    · subst hia
      by_cases hl : i ∈ l <;> simp [hl]
    · by_cases hl : i ∈ l <;> simp [hl, hia, Function.update_noteq hia]

theorem init_cache_at (st : State) (i : Fin CACHE_SIZE) :
    (init_cache st).cache i = { st.cache i with query := none, result := none } := by
  unfold init_cache
  simp only
  rw [init_loop_at]
  simp [List.mem_finRange]

theorem init_cache_heap (st : State) : (init_cache st).heap = st.heap := rfl

theorem wf_of_all_null {st : State}
    (h : ∀ i, (st.cache i).query = none ∧ (st.cache i).result = none) : WF st := by
  constructor
  · intro i a ha; rw [(h i).1] at ha; exact Option.noConfusion ha
  · intro i a ha; rw [(h i).2] at ha; exact Option.noConfusion ha
  · intro i j a ha; rw [(h i).1] at ha; exact Option.noConfusion ha
  · intro i j a ha; rw [(h i).2] at ha; exact Option.noConfusion ha
  · intro i j a ha; rw [(h i).1] at ha; exact Option.noConfusion ha

theorem init_cache_wf (st : State) : WF (init_cache st) :=
  wf_of_all_null (fun i => by rw [init_cache_at]; exact ⟨rfl, rfl⟩)

theorem st0_wf : WF st0 := wf_of_all_null (fun _ => ⟨rfl, rfl⟩)

theorem Reachable.wf {st : State} (h : Reachable st) : WF st := by
  induction h with
  | init st => exact init_cache_wf st
  | set k v now mq mr _ hs ih =>
    rw [cache_set_ok ih] at hs
    injection hs with hs
    rw [← hs]; exact set_post_wf ih k v now mq mr
  | get k now p _ hg ih => exact cache_get_wf ih hg

/-! ## The hash and the slot index -/

theorem hash_step_toNat (h : Nat) (c : Int) :
    hash_step h c = (((h : Int) * 33 + c) % (SIZE_MOD : Int)).toNat := by
  have := hash_step_eq h c
  omega

theorem hash_loop_eq_foldl (l : List Int) (hl : ∀ c ∈ l, c ≠ 0) (h : Nat) :
    hash_loop l h =
      l.foldl (fun (h : Nat) (c : Int) => (((h : Int) * 33 + c) % (SIZE_MOD : Int)).toNat) h := by
  induction l generalizing h with
  | nil => rfl
  | cons c l ih =>
    have hc : c ≠ 0 := hl c (List.mem_cons_self c l)
    rw [hash_loop, if_neg hc, List.foldl_cons, ← hash_step_toNat]
    exact ih (fun x hx => hl x (List.mem_cons_of_mem c hx)) _

/-- C5: the slot index of `cache_get` and `cache_set` is the djb2 hash modulo
`CACHE_SIZE`. For every string the code's `hash` equals the fold of
`h := h*33 + c` from 5381 in arithmetic modulo `2 ^ 64`; every step
`(hash << 5) + hash + c` equals `hash*33 + c` modulo `2 ^ 64`; the index is that
hash modulo 100 and lies in `[0, 100)`. The index is a function of the
characters of the string alone, so equal strings have equal indices. -/
theorem C5_index_is_djb2_mod (s : CStr) :
    hash s = djb2 s ∧
    (∀ (h : Nat) (c : Int),
      (hash_step h c : Int) = ((h : Int) * 33 + c) % ((2 : Int) ^ 64)) ∧
    (slot_index s).val = djb2 s % 100 ∧
    (slot_index s).val < 100 ∧
    (∀ s2 : CStr, s2.chars = s.chars → slot_index s2 = slot_index s) := by
  have h1 : hash s = djb2 s :=
    hash_loop_eq_foldl s.chars (fun c hc => (s.valid c hc).1) 5381
  refine ⟨h1, ?_, ?_, (slot_index s).isLt, ?_⟩
  · intro h c
    rw [hash_step_eq]
    norm_num
  · show hash s % CACHE_SIZE = djb2 s % 100
    rw [h1]
  · intro s2 h2
    apply Fin.ext
    show hash s2 % CACHE_SIZE = hash s % CACHE_SIZE
    unfold hash
    rw [h2]

/-! ## Miss after init -/

/-- C6: after `init_cache()`, called on any state at all (the state left by
`free_cache` included), every one of the 100 slots has no key and no value, and
`cache_get(k)` returns `NULL` for every key at every clock time, leaving the
state as it is. -/
theorem C6_miss_after_init (st : State) (k : CStr) (now : Int) :
    (∀ i, ((init_cache st).cache i).empty) ∧
    cache_get (init_cache st) k now = .ok (none, init_cache st) ∧
    lookup (init_cache st) k now = .ok none ∧
    (∀ st1, free_cache st = .ok st1 →
      cache_get (init_cache st1) k now = .ok (none, init_cache st1)) := by
  have hempty : ∀ s i, ((init_cache s).cache i).empty := by
    intro s i
    rw [init_cache_at]
    exact ⟨rfl, rfl⟩
  have hget : ∀ s, cache_get (init_cache s) k now = .ok (none, init_cache s) :=
    fun s => cache_get_empty now (hempty s _).1
  refine ⟨hempty st, hget st, ?_, fun st1 _ => hget st1⟩
  simp [lookup, hget st, deref]

/-! ## Hit after store -/

theorem lookup_of_get {st st1 : State} {k : CStr} {now : Int} {p : Ptr}
    (h : cache_get st k now = .ok (p, st1)) : lookup st k now = .ok (deref st1.heap p) := by
  simp [lookup, h]

theorem hit_of_populated {st : State} (k v : CStr) (t t1 : Int) (mq mr : Allocator)
    (ht : t1 - t < TTL)
    (hp : ((set_post st k v t mq mr).cache (slot_index k)).populated) :
    ∃ p, cache_get (set_post st k v t mq mr) k t1 = .ok (some p, set_post st k v t mq mr) ∧
      (set_post st k v t mq mr).heap p = some v := by
  obtain ⟨hq, hr⟩ := hp
  obtain ⟨a, ha⟩ := Option.ne_none_iff_exists'.mp hq
  obtain ⟨b, hb⟩ := Option.ne_none_iff_exists'.mp hr
  have hts : ((set_post st k v t mq mr).cache (slot_index k)).timestamp = t := by
    rw [set_post_at]
  refine ⟨b, ?_, (set_post_result hb).1⟩
  rw [cache_get_fresh ha (set_post_query ha).1 (by rw [hts]; exact ht), hb]

theorem strdup_ne_none {m : Allocator} {h : Heap} (s : CStr) (hp : m.pick h ≠ none) :
    (strdup m h s).1 ≠ none := by
  unfold strdup
  cases e : m.pick h with
  | none => exact (hp e).elim
  | some a => simp

theorem set_post_populated {st : State} (k v : CStr) (t : Int) {mq mr : Allocator}
    (hq : mq.pick (heap_after_evict st (slot_index k)) ≠ none)
    (hr : mr.pick (strdup mq (heap_after_evict st (slot_index k)) k).2 ≠ none) :
    ((set_post st k v t mq mr).cache (slot_index k)).populated := by
  rw [set_post_at]
  exact ⟨strdup_ne_none k hq, strdup_ne_none v hr⟩

/-- C1: hit after store. From every state in which the slots own their
strings, when the `malloc` inside `strdup(k)` and the one inside `strdup(v)` do
not fail on the heaps they are called on, `cache_set(k, v)` at time `t` returns
and leaves the slot with a key and a value, and a `cache_get(k)` at any time
`t1` with `t1 - t < TTL` returns a non-`NULL` pointer to a string equal to `v`
and leaves the state unchanged. -/
theorem C1_hit_after_store (st : State) (k v : CStr) (t t1 : Int) (mq mr : Allocator)
    (hwf : WF st) (ht : t1 - t < TTL)
    (hq : mq.pick (heap_after_evict st (slot_index k)) ≠ none)
    (hr : mr.pick (strdup mq (heap_after_evict st (slot_index k)) k).2 ≠ none) :
    ∃ st1, cache_set st k v t mq mr = .ok st1 ∧
      (st1.cache (slot_index k)).populated ∧
      (∃ p, cache_get st1 k t1 = .ok (some p, st1) ∧ st1.heap p = some v) ∧
      lookup st1 k t1 = .ok (some v) := by
  have hp : ((set_post st k v t mq mr).cache (slot_index k)).populated :=
    set_post_populated k v t hq hr
  obtain ⟨p, hget, hv⟩ := hit_of_populated k v t t1 mq mr ht hp
  refine ⟨set_post st k v t mq mr, cache_set_ok hwf k v t mq mr, hp, ⟨p, hget, hv⟩, ?_⟩
  rw [lookup_of_get hget]
  exact congrArg Except.ok hv

/-- Witness of C1: `cache_set("A", "1")` at time 100 on the start state, the
two duplications landing at addresses 1 and 2, then `cache_get("A")` at time
159. -/
theorem C1_hit_after_store_witness :
    ∃ st1, cache_set st0 kA val1 100 (alloc_at 1) (alloc_at 2) = .ok st1 ∧
      (st1.cache (slot_index kA)).populated ∧
      (∃ p, cache_get st1 kA 159 = .ok (some p, st1) ∧ st1.heap p = some val1) ∧
      lookup st1 kA 159 = .ok (some val1) :=
  C1_hit_after_store st0 kA val1 100 159 (alloc_at 1) (alloc_at 2) st0_wf (by decide)
    (by decide) (by decide)

/-! ## Expiry -/

/-- C2: expiry with self-healing. After `cache_set(k, v)` at time `t`, a
`cache_get(k)` at any time `t1` with `t1 - t >= TTL` (the boundary included)
returns `NULL`; when the key was duplicated it leaves slot `hash(k) % 100`
with no key and no value; and a following `cache_get(k)` returns `NULL` again,
whatever the clock `t2` reads, and changes nothing. -/
theorem C2_expiry_self_healing (st : State) (k v : CStr) (t t1 t2 : Int)
    (mq mr : Allocator) (hwf : WF st) (ht : TTL ≤ t1 - t) :
    ∃ st1 st2, cache_set st k v t mq mr = .ok st1 ∧
      cache_get st1 k t1 = .ok (none, st2) ∧
      ((st1.cache (slot_index k)).query ≠ none → (st2.cache (slot_index k)).empty) ∧
      cache_get st2 k t2 = .ok (none, st2) := by
  have hts : ((set_post st k v t mq mr).cache (slot_index k)).timestamp = t := by
    rw [set_post_at]
  cases hq : ((set_post st k v t mq mr).cache (slot_index k)).query with
  | none =>
    refine ⟨_, _, cache_set_ok hwf k v t mq mr, cache_get_empty t1 hq, ?_, cache_get_empty t2 hq⟩
    intro h; exact (h hq).elim
  | some a =>
    have hstale : cache_get (set_post st k v t mq mr) k t1
        = .ok (none, expire_post (set_post st k v t mq mr) (slot_index k)) :=
      cache_get_stale (set_post_wf hwf k v t mq mr) hq
        (set_post_query hq).1 (by rw [hts]; exact ht)
    have hq2 : ((expire_post (set_post st k v t mq mr) (slot_index k)).cache
        (slot_index k)).query = none := by simp [expire_post]
    refine ⟨_, _, cache_set_ok hwf k v t mq mr, hstale, ?_, cache_get_empty t2 hq2⟩
    intro _
    exact ⟨hq2, by simp [expire_post]⟩

/-- Witness of C2: `"A"` stored at time 100 and looked up at time 160, the
first stale instant, then again at time 0. -/
theorem C2_expiry_self_healing_witness :
    (∃ st1 st2, cache_set st0 kA val1 100 (alloc_at 1) (alloc_at 2) = .ok st1 ∧
      cache_get st1 kA 160 = .ok (none, st2) ∧
      ((st1.cache (slot_index kA)).query ≠ none → (st2.cache (slot_index kA)).empty) ∧
      cache_get st2 kA 0 = .ok (none, st2)) ∧
    ((set_post st0 kA val1 100 (alloc_at 1) (alloc_at 2)).cache (slot_index kA)).query
      = some 1 ∧
    lookup (set_post st0 kA val1 100 (alloc_at 1) (alloc_at 2)) kA 159 = .ok (some val1) ∧
    lookup (set_post st0 kA val1 100 (alloc_at 1) (alloc_at 2)) kA 160 = .ok none :=
  ⟨C2_expiry_self_healing st0 kA val1 100 160 0 (alloc_at 1) (alloc_at 2) st0_wf (by decide),
    rfl, rfl, rfl⟩

/-! ## Collision overwrite -/

/-- C3: collision overwrite. For keys `k1 ≠ k2` with
`hash(k1) % 100 = hash(k2) % 100`, after `cache_set(k1, v1)` and then
`cache_set(k2, v2)` a `cache_get(k1)` returns `NULL` at every clock time,
however fresh the entry of `k1` was, and changes nothing; and when the `malloc`
inside `strdup(k2)` and the one inside `strdup(v2)` do not fail on the heaps
they are called on, `cache_get(k2)` within the TTL of the second store returns
a string equal to `v2`. -/
theorem C3_collision_overwrite (st : State) (k1 k2 w1 w2 : CStr) (t1 t2 t3 : Int)
    (mq1 mr1 mq2 mr2 : Allocator) (hwf : WF st) (hne : k1 ≠ k2)
    (hcol : hash k1 % 100 = hash k2 % 100) :
    ∃ st1 st2, cache_set st k1 w1 t1 mq1 mr1 = .ok st1 ∧
      cache_set st1 k2 w2 t2 mq2 mr2 = .ok st2 ∧
      cache_get st2 k1 t3 = .ok (none, st2) ∧
      (t3 - t2 < TTL →
        mq2.pick (heap_after_evict st1 (slot_index k2)) ≠ none →
        mr2.pick (strdup mq2 (heap_after_evict st1 (slot_index k2)) k2).2 ≠ none →
        ∃ p, cache_get st2 k2 t3 = .ok (some p, st2) ∧ st2.heap p = some w2) := by
  have hidx : slot_index k1 = slot_index k2 := Fin.ext hcol
  have hwf1 := set_post_wf hwf k1 w1 t1 mq1 mr1
  refine ⟨_, _, cache_set_ok hwf k1 w1 t1 mq1 mr1, cache_set_ok hwf1 k2 w2 t2 mq2 mr2, ?_,
    fun ht hq hr => hit_of_populated k2 w2 t2 t3 mq2 mr2 ht (set_post_populated k2 w2 t2 hq hr)⟩
  cases hq : ((set_post (set_post st k1 w1 t1 mq1 mr1) k2 w2 t2 mq2 mr2).cache
      (slot_index k1)).query with
  | none => exact cache_get_empty t3 hq
  | some a =>
    have hq2 := hq
    rw [hidx] at hq2
    exact cache_get_other t3 hq (set_post_query hq2).1 (fun e => hne e.symm)

/-- Witness of C3: `"A"` and `"AT"` share slot 38; `"A" -> "1"` is stored at
time 100, `"AT" -> "2"` at time 101 with both duplications succeeding, and at
time 102 the lookup of `"A"` misses and the lookup of `"AT"` returns `"2"`. -/
theorem C3_collision_overwrite_witness :
    (slot_index kA).val = 38 ∧ (slot_index kAT).val = 38 ∧
    ∃ st1 st2, cache_set st0 kA val1 100 (alloc_at 1) (alloc_at 2) = .ok st1 ∧
      cache_set st1 kAT val2 101 (alloc_at 3) (alloc_at 4) = .ok st2 ∧
      cache_get st2 kA 102 = .ok (none, st2) ∧
      ∃ p, cache_get st2 kAT 102 = .ok (some p, st2) ∧ st2.heap p = some val2 := by
  refine ⟨by decide, by decide, ?_⟩
  obtain ⟨st1, st2, h1, h2, h3, h4⟩ :=
    C3_collision_overwrite st0 kA kAT val1 val2 100 101 102 (alloc_at 1) (alloc_at 2)
      (alloc_at 3) (alloc_at 4) st0_wf (by decide) (by decide)
  have e1 : st1 = set_post st0 kA val1 100 (alloc_at 1) (alloc_at 2) := by
    rw [cache_set_ok st0_wf] at h1
    injection h1 with h1
    exact h1.symm
  subst e1
  exact ⟨_, _, h1, h2, h3, h4 (by decide) (by decide) (by decide)⟩

/-! ## Store touches one slot -/

theorem lookup_ok {st : State} (hwf : WF st) (k : CStr) (now : Int) :
    ∃ r, lookup st k now = .ok r := by
  rcases cache_get_cases hwf k now with ⟨p, h⟩ | ⟨_, _, h⟩
  · exact ⟨_, lookup_of_get h⟩
  · exact ⟨_, lookup_of_get h⟩

theorem lookup_set_post_other {st : State} (hwf : WF st) (k v : CStr) (t : Int)
    (mq mr : Allocator) (k2 : CStr) (now : Int) (hk : slot_index k2 ≠ slot_index k) :
    lookup (set_post st k v t mq mr) k2 now = lookup st k2 now := by
  have hwf1 := set_post_wf hwf k v t mq mr
  have hslot := set_post_other st k v t mq mr hk
  cases hq : (st.cache (slot_index k2)).query with
  | none =>
    rw [lookup_of_get (cache_get_empty now (by rw [hslot]; exact hq)),
      lookup_of_get (cache_get_empty now hq)]
    rfl
  | some a =>
    obtain ⟨s, hs⟩ := hwf.query_live _ a hq
    have hq1 : ((set_post st k v t mq mr).cache (slot_index k2)).query = some a := by
      rw [hslot]; exact hq
    have hs1 : (set_post st k v t mq mr).heap a = some s := by
      rw [set_post_heap_other hwf hk (Or.inl hq)]; exact hs
    by_cases hsk : s = k2
    · subst hsk
      by_cases ht : now - (st.cache (slot_index s)).timestamp < TTL
      · rw [lookup_of_get (cache_get_fresh hq1 hs1 (by rw [hslot]; exact ht)),
          lookup_of_get (cache_get_fresh hq hs ht), hslot]
        cases hr : (st.cache (slot_index s)).result with
        | none => rfl
        | some b =>
          exact congrArg Except.ok (set_post_heap_other hwf hk (Or.inr hr))
      · rw [lookup_of_get (cache_get_stale hwf1 hq1 hs1 (by rw [hslot]; exact not_lt.mp ht)),
          lookup_of_get (cache_get_stale hwf hq hs (not_lt.mp ht))]
        rfl
    · rw [lookup_of_get (cache_get_other now hq1 hs1 hsk),
        lookup_of_get (cache_get_other now hq hs hsk)]
      rfl

/-- C4: `cache_set(k, v)` touches exactly one slot. Every slot whose index
differs from `hash(k) % 100` keeps its key pointer, value pointer and
timestamp, the strings they refer to are the same as before, and for every key
`k2` of another slot `cache_get(k2)` at a given clock time gives the same result
(miss, or the same string) after the store as before it. -/
theorem C4_store_touches_one_slot (st : State) (k v : CStr) (t : Int) (mq mr : Allocator)
    (hwf : WF st) :
    ∃ st1, cache_set st k v t mq mr = .ok st1 ∧
      (∀ i, i ≠ slot_index k →
        st1.cache i = st.cache i ∧
        deref st1.heap (st.cache i).query = deref st.heap (st.cache i).query ∧
        deref st1.heap (st.cache i).result = deref st.heap (st.cache i).result) ∧
      (∀ (k2 : CStr) (now : Int), hash k2 % 100 ≠ hash k % 100 →
        ∃ r, lookup st k2 now = .ok r ∧ lookup st1 k2 now = .ok r) := by
  refine ⟨_, cache_set_ok hwf k v t mq mr, ?_, ?_⟩
  · intro i hi
    refine ⟨set_post_other st k v t mq mr hi, ?_, ?_⟩
    · cases hq : (st.cache i).query with
      | none => rfl
      | some a => exact set_post_heap_other hwf hi (Or.inl hq)
    · cases hr : (st.cache i).result with
      | none => rfl
      | some a => exact set_post_heap_other hwf hi (Or.inr hr)
  · intro k2 now hk
    obtain ⟨r, hr⟩ := lookup_ok hwf k2 now
    refine ⟨r, hr, ?_⟩
    rw [lookup_set_post_other hwf k v t mq mr k2 now (fun e => hk (congrArg Fin.val e))]
    exact hr

/-- Witness of C4: with `"B" -> "2"` stored in slot 39, a store of `"A"` (slot
38) leaves the lookup of `"B"` at `"2"`. -/
theorem C4_store_touches_one_slot_witness :
    (∃ st1, cache_set st_B kA val1 110 (alloc_at 3) (alloc_at 4) = .ok st1 ∧
      (∀ i, i ≠ slot_index kA →
        st1.cache i = st_B.cache i ∧
        deref st1.heap (st_B.cache i).query = deref st_B.heap (st_B.cache i).query ∧
        deref st1.heap (st_B.cache i).result = deref st_B.heap (st_B.cache i).result) ∧
      (∀ (k2 : CStr) (now : Int), hash k2 % 100 ≠ hash kA % 100 →
        ∃ r, lookup st_B k2 now = .ok r ∧ lookup st1 k2 now = .ok r)) ∧
    hash kB % 100 ≠ hash kA % 100 ∧
    lookup st_B kB 120 = .ok (some val2) ∧
    lookup (set_post st_B kA val1 110 (alloc_at 3) (alloc_at 4)) kB 120 = .ok (some val2) :=
  ⟨C4_store_touches_one_slot st_B kA val1 110 (alloc_at 3) (alloc_at 4)
      (set_post_wf st0_wf kB val2 100 (alloc_at 1) (alloc_at 2)),
    by decide, rfl, rfl⟩

/-! ## Lookup writes only on a stale match -/

/-- C10: `cache_get(k)` changes the state only on a stale match. Unless slot
`hash(k) % 100` holds an entry whose key equals `k` and whose age is `>= TTL`,
the call returns and leaves the whole state as it was; in particular when the
slot holds another key `k2` the call returns `NULL` and the entry of `k2`
stays, stale or not. On a stale match the call returns `NULL` and clears the
slot. -/
theorem C10_lookup_writes_only_on_stale_match (st : State) (k : CStr) (now : Int)
    (hwf : WF st) :
    (¬ stale_match st k now → ∃ p, cache_get st k now = .ok (p, st)) ∧
    (∀ (a : Nat) (k2 : CStr), (st.cache (slot_index k)).query = some a →
      st.heap a = some k2 → k2 ≠ k → cache_get st k now = .ok (none, st)) ∧
    (stale_match st k now →
      cache_get st k now = .ok (none, expire_post st (slot_index k)) ∧
      (expire_post st (slot_index k)).cache (slot_index k) ≠ st.cache (slot_index k)) := by
  refine ⟨?_, ?_, ?_⟩
  · intro hns
    rcases cache_get_cases hwf k now with h | ⟨⟨a, ha, hs⟩, ht, _⟩
    · exact h
    · exact (hns ⟨a, ha, hs, ht⟩).elim
  · intro a k2 hq hs hne
    exact cache_get_other now hq hs hne
  · rintro ⟨a, hq, hs, ht⟩
    refine ⟨cache_get_stale hwf hq hs ht, ?_⟩
    intro e
    have : ((expire_post st (slot_index k)).cache (slot_index k)).query = some a := by
      rw [e]; exact hq
    simp [expire_post] at this

/-- Witness of C10: slot 38 holds the entry of `"AT"`, stored at time 100; a
lookup of the colliding key `"A"` at time 1000 returns `NULL` and leaves the
state as it is. -/
theorem C10_lookup_writes_only_on_stale_match_witness :
    ((¬ stale_match st_AT kA 1000 → ∃ p, cache_get st_AT kA 1000 = .ok (p, st_AT)) ∧
      (∀ (a : Nat) (k2 : CStr), (st_AT.cache (slot_index kA)).query = some a →
        st_AT.heap a = some k2 → k2 ≠ kA → cache_get st_AT kA 1000 = .ok (none, st_AT)) ∧
      (stale_match st_AT kA 1000 →
        cache_get st_AT kA 1000 = .ok (none, expire_post st_AT (slot_index kA)) ∧
        (expire_post st_AT (slot_index kA)).cache (slot_index kA)
          ≠ st_AT.cache (slot_index kA))) ∧
    (st_AT.cache (slot_index kA)).query = some 1 ∧ st_AT.heap 1 = some kAT ∧
    cache_get st_AT kA 1000 = .ok (none, st_AT) :=
  ⟨C10_lookup_writes_only_on_stale_match st_AT kA 1000
      (set_post_wf st0_wf kAT val2 100 (alloc_at 1) (alloc_at 2)),
    rfl, rfl, rfl⟩

/-! ## Allocation failure inside cache_set -/

/-- C8, the code at the failing inputs: on the start state,
`cache_set("A", "1")` in which the key is duplicated and the `strdup` of the
value returns `NULL` leaves slot 38 with a key and no value; when the `strdup`
of the key fails and that of the value succeeds it leaves a value and no
key. The store is not aborted in either case. -/
theorem C8_cache_set_leaves_half_written_slot :
    (∃ st1, cache_set st0 kA val1 100 (alloc_at 1) alloc_fail = .ok st1 ∧
      (st1.cache (slot_index kA)).query = some 1 ∧ st1.heap 1 = some kA ∧
      (st1.cache (slot_index kA)).result = none) ∧
    (∃ st1, cache_set st0 kA val1 100 alloc_fail (alloc_at 1) = .ok st1 ∧
      (st1.cache (slot_index kA)).query = none ∧
      (st1.cache (slot_index kA)).result = some 1 ∧ st1.heap 1 = some val1) :=
  ⟨⟨_, rfl, rfl, rfl, rfl⟩, ⟨_, rfl, rfl, rfl, rfl⟩⟩

/-! ## free_cache -/

theorem free_pair {h : Heap} {q r : Ptr}
    (hq : ∀ a, q = some a → ∃ x, h a = some x)
    (hr : ∀ a, r = some a → ∃ x, h a = some x)
    (hne : ∀ a, q = some a → r ≠ some a) :
    free h q = .ok (release h q) ∧ free (release h q) r = .ok (release (release h q) r) := by
  refine ⟨free_eq_release hq, free_eq_release ?_⟩
  intro a ha
  obtain ⟨x, hx⟩ := hr a ha
  refine ⟨x, ?_⟩
  rw [release_of_ne (fun e => hne a e ha)]
  exact hx

theorem free_cache_step_ok {c : Fin CACHE_SIZE → CacheEntry} {h : Heap} {i : Fin CACHE_SIZE}
    (hq : ∀ a, (c i).query = some a → ∃ x, h a = some x)
    (hr : ∀ a, (c i).result = some a → ∃ x, h a = some x)
    (hne : ∀ a, (c i).query = some a → (c i).result ≠ some a) :
    free_cache_step ⟨c, h⟩ i = .ok ⟨c, release (release h (c i).query) (c i).result⟩ := by
  obtain ⟨h1, h2⟩ := free_pair hq hr hne
  simp only [free_cache_step, h1, h2]

/-- On slots that own live strings the loop of `free_cache` returns, leaves the
table as it is and the released blocks not live. -/
theorem free_cache_loop_ok {st : State} (hwf : WF st) (l : List (Fin CACHE_SIZE))
    (hl : l.Nodup) (h : Heap)
    (hlive : ∀ i ∈ l, ∀ a, (st.cache i).query = some a ∨ (st.cache i).result = some a →
      ∃ x, h a = some x) :
    ∃ h1, free_cache_loop l ⟨st.cache, h⟩ = .ok ⟨st.cache, h1⟩ ∧
      (∀ a, h a = none → h1 a = none) ∧
      (∀ i ∈ l, ∀ a, (st.cache i).query = some a ∨ (st.cache i).result = some a →
        h1 a = none) := by
  induction l generalizing h with
  | nil => exact ⟨h, rfl, fun _ ha => ha, fun i hi => absurd hi (List.not_mem_nil i)⟩
  | cons i l ih =>
    have hi : i ∈ i :: l := List.mem_cons_self i l
    have hstep := free_cache_step_ok (c := st.cache) (h := h) (i := i)
      (fun a ha => hlive i hi a (Or.inl ha)) (fun a ha => hlive i hi a (Or.inr ha))
      (fun a ha => hwf.query_ne_result i i a ha)
    have hnd := List.nodup_cons.mp hl
    obtain ⟨h1, hloop, hdead, hrel⟩ := ih hnd.2
      (release (release h (st.cache i).query) (st.cache i).result) (by
        intro j hj a ha
        have hji : j ≠ i := fun e => hnd.1 (e ▸ hj)
        obtain ⟨_, n1, n2⟩ := hwf.other_slot hji ha
        obtain ⟨x, hx⟩ := hlive j (List.mem_cons_of_mem i hj) a ha
        exact ⟨x, by rw [release_of_ne n2, release_of_ne n1]; exact hx⟩)
    refine ⟨h1, ?_, ?_, ?_⟩
    · simp only [free_cache_loop, hstep]
      exact hloop
    · intro a ha
      exact hdead a (release_dead (release_dead ha))
    · intro j hj a ha
      rcases List.mem_cons.mp hj with e | hjl
      · subst e
        apply hdead
        rcases ha with ha | ha
        · apply release_dead; rw [ha]; exact release_self
        · rw [ha]; exact release_self
      · exact hrel j hjl a ha

/-- When the strings of all slots of the list are not live and one slot of the
list still has a non-`NULL` field, the loop of `free_cache` frees a block that
is not live. -/
theorem free_cache_loop_fault (c : Fin CACHE_SIZE → CacheEntry) (h : Heap)
    (l : List (Fin CACHE_SIZE))
    (hdead : ∀ i ∈ l, ∀ a, (c i).query = some a ∨ (c i).result = some a → h a = none)
    (hocc : ∃ i ∈ l, (c i).query ≠ none ∨ (c i).result ≠ none) :
    free_cache_loop l ⟨c, h⟩ = .error .invalid_free := by
  induction l with
  | nil =>
    obtain ⟨i, hi, _⟩ := hocc
    exact absurd hi (List.not_mem_nil i)
  | cons i l ih =>
    have hi : i ∈ i :: l := List.mem_cons_self i l
    cases hq : (c i).query with
    | some a =>
      have := free_dead (hdead i hi a (Or.inl hq))
      simp [free_cache_loop, free_cache_step, hq, this]
    | none =>
      cases hr : (c i).result with
      | some b =>
        have hb := hdead i hi b (Or.inr hr)
        simp [free_cache_loop, free_cache_step, hq, hr, free, hb]
      | none =>
        have hstep : free_cache_step ⟨c, h⟩ i = .ok ⟨c, h⟩ := by
          simp [free_cache_step, hq, hr, free]
        simp only [free_cache_loop, hstep]
        apply ih (fun j hj => hdead j (List.mem_cons_of_mem i hj))
        obtain ⟨j, hj, hoc⟩ := hocc
        rcases List.mem_cons.mp hj with e | hjl
        · subst e
          rcases hoc with x | x
          · exact (x hq).elim
          · exact (x hr).elim
        · exact ⟨j, hjl, hoc⟩

/-- C9, the code on every reachable state with an occupied slot: the first
`free_cache()` returns and leaves every slot pointing at the strings it has
just released, and the second `free_cache()` frees a block that is no longer
live (a double free). -/
theorem C9_free_cache_twice_double_free (st : State) (hr : Reachable st)
    (hocc : ∃ i, (st.cache i).query ≠ none ∨ (st.cache i).result ≠ none) :
    ∃ st1, free_cache st = .ok st1 ∧ st1.cache = st.cache ∧
      (∀ i a, (st1.cache i).query = some a ∨ (st1.cache i).result = some a →
        st1.heap a = none) ∧
      free_cache st1 = .error .invalid_free := by
  have hwf := hr.wf
  obtain ⟨h1, hloop, _, hrel⟩ := free_cache_loop_ok hwf (List.finRange CACHE_SIZE)
    (List.nodup_finRange _) st.heap (by
      intro i _ a ha
      rcases ha with ha | ha
      · exact hwf.query_live i a ha
      · exact hwf.result_live i a ha)
  refine ⟨⟨st.cache, h1⟩, hloop, rfl, fun i a ha => hrel i (List.mem_finRange i) a ha, ?_⟩
  apply free_cache_loop_fault st.cache h1 _ (fun i hi a ha => hrel i hi a ha)
  obtain ⟨i, hi⟩ := hocc
  exact ⟨i, List.mem_finRange i, hi⟩

/-- Witness of C9: `init_cache(); cache_set("A", "1"); free_cache();
free_cache();`. -/
theorem C9_free_cache_twice_double_free_witness :
    ∃ st1, free_cache (set_post (init_cache st0) kA val1 100 (alloc_at 1) (alloc_at 2))
        = .ok st1 ∧
      st1.cache = (set_post (init_cache st0) kA val1 100 (alloc_at 1) (alloc_at 2)).cache ∧
      (∀ i a, (st1.cache i).query = some a ∨ (st1.cache i).result = some a →
        st1.heap a = none) ∧
      free_cache st1 = .error .invalid_free :=
  C9_free_cache_twice_double_free
    (set_post (init_cache st0) kA val1 100 (alloc_at 1) (alloc_at 2))
    (Reachable.set kA val1 100 (alloc_at 1) (alloc_at 2) (Reachable.init st0)
      (cache_set_ok (init_cache_wf st0) kA val1 100 (alloc_at 1) (alloc_at 2)))
    ⟨slot_index kA, Or.inl (by
      rw [set_post_at]
      decide)⟩

/-! ## Manager.c: the mutating helpers -/

theorem snprintf_fits (size : Nat) (pieces : List CStr)
    (h : (pieces.foldl CStr.append CStr.nil).chars.length ≤ size - 1) :
    snprintf size pieces = pieces.foldl CStr.append CStr.nil := by
  unfold snprintf CStr.take
  congr 1
  exact List.take_of_length_le h

/-- The buffer of `insert_row` is long enough: the statement is not cut. -/
theorem insert_text_chars (t v : CStr) (h : strlen t + strlen v + 30 < SIZE_MOD) :
    (insert_text t v).chars =
      (CStr.lit "INSERT INTO ").chars ++ t.chars ++ (CStr.lit " VALUES (").chars ++ v.chars
        ++ (CStr.lit ");").chars := by
  have h1 : (CStr.lit "INSERT INTO ").chars.length = 12 := rfl
  have h2 : (CStr.lit " VALUES (").chars.length = 9 := rfl
  have h3 : (CStr.lit ");").chars.length = 2 := rfl
  unfold insert_text
  rw [Nat.mod_eq_of_lt h, snprintf_fits]
  · simp [CStr.append, CStr.nil]
  · simp only [List.foldl, CStr.append, CStr.nil, List.nil_append, List.length_append, h1, h2, h3]
    unfold strlen
    omega

/-- The buffer of `delete_row` is long enough: the statement is not cut. -/
theorem delete_text_chars (t c : CStr) (h : strlen t + strlen c + 30 < SIZE_MOD) :
    (delete_text t c).chars =
      (CStr.lit "DELETE FROM ").chars ++ t.chars ++ (CStr.lit " WHERE ").chars ++ c.chars
        ++ (CStr.lit ";").chars := by
  have h1 : (CStr.lit "DELETE FROM ").chars.length = 12 := rfl
  have h2 : (CStr.lit " WHERE ").chars.length = 7 := rfl
  have h3 : (CStr.lit ";").chars.length = 1 := rfl
  unfold delete_text
  rw [Nat.mod_eq_of_lt h, snprintf_fits]
  · simp [CStr.append, CStr.nil]
  · simp only [List.foldl, CStr.append, CStr.nil, List.nil_append, List.length_append, h1, h2, h3]
    unfold strlen
    omega

/-- The buffer of `update_row` is long enough: the statement is not cut. -/
theorem update_text_chars (t v c : CStr)
    (h : strlen t + strlen v + strlen c + 50 < SIZE_MOD) :
    (update_text t v c).chars =
      (CStr.lit "UPDATE ").chars ++ t.chars ++ (CStr.lit " SET ").chars ++ v.chars
        ++ (CStr.lit " WHERE ").chars ++ c.chars ++ (CStr.lit ";").chars := by
  have h1 : (CStr.lit "UPDATE ").chars.length = 7 := rfl
  have h2 : (CStr.lit " SET ").chars.length = 5 := rfl
  have h3 : (CStr.lit " WHERE ").chars.length = 7 := rfl
  have h4 : (CStr.lit ";").chars.length = 1 := rfl
  unfold update_text
  rw [Nat.mod_eq_of_lt h, snprintf_fits]
  · simp [CStr.append, CStr.nil]
  · simp only [List.foldl, CStr.append, CStr.nil, List.nil_append, List.length_append, h1, h2, h3,
      h4]
    unfold strlen
    omega

theorem with_buffer_wf {st : State} (hwf : WF st) {a : Nat} (ha : st.heap a = none)
    (text : CStr) : WF (with_buffer st a text) := by
  have keep : ∀ c x, st.heap c = some x → (with_buffer st a text).heap c = some x := by
    intro c x hx
    have hca : c ≠ a := fun e => by rw [e, ha] at hx; exact Option.noConfusion hx
    show Function.update st.heap a (some text) c = some x
    rw [Function.update_noteq hca]; exact hx
  constructor
  · intro i c hc
    obtain ⟨x, hx⟩ := hwf.query_live i c hc
    exact ⟨x, keep c x hx⟩
  · intro i c hc
    obtain ⟨x, hx⟩ := hwf.result_live i c hc
    exact ⟨x, keep c x hx⟩
  · exact hwf.query_inj
  · exact hwf.result_inj
  · exact hwf.query_ne_result

theorem buffer_survives_set {st : State} (hwf : WF st) {a : Nat} (ha : st.heap a = none)
    (text v : CStr) (now : Int) (mq mr : Allocator) :
    (set_post (with_buffer st a text) text v now mq mr).heap a = some text := by
  apply set_post_heap_live
  have hne : ∀ i, (st.cache i).query ≠ some a ∧ (st.cache i).result ≠ some a := by
    intro i
    constructor
    · intro e
      obtain ⟨x, hx⟩ := hwf.query_live i a e
      rw [ha] at hx; exact Option.noConfusion hx
    · intro e
      obtain ⟨x, hx⟩ := hwf.result_live i a e
      rw [ha] at hx; exact Option.noConfusion hx
  have hev : heap_after_evict (with_buffer st a text) (slot_index text) a
      = (with_buffer st a text).heap a := evict_of_ne (hne _).1 (hne _).2
  rw [hev]
  show Function.update st.heap a (some text) a = some text
  simp

theorem run_statement_fail {st : State} (size : Nat) (pieces : List CStr) (now : Int)
    {mb : Allocator} (mq mr : Allocator) (exec : CStr → Int) (hb : mb.pick st.heap = none) :
    run_statement st size pieces now mb mq mr exec = .ok (EXIT_FAILURE, st) := by
  simp [run_statement, hb]

theorem run_statement_ok {st : State} (hwf : WF st) (size : Nat) (pieces : List CStr)
    (now : Int) {mb : Allocator} (mq mr : Allocator) (exec : CStr → Int) {a : Nat}
    (hb : mb.pick st.heap = some a) :
    run_statement st size pieces now mb mq mr exec =
      .ok (exec (snprintf size pieces),
        { set_post (with_buffer st a (snprintf size pieces)) (snprintf size pieces) CStr.nil
            now mq mr with
          heap := release (set_post (with_buffer st a (snprintf size pieces))
            (snprintf size pieces) CStr.nil now mq mr).heap (some a) }) := by
  have ha := mb.fresh _ _ hb
  have hset := cache_set_ok (with_buffer_wf hwf ha (snprintf size pieces))
    (snprintf size pieces) CStr.nil now mq mr
  have hfree := free_eq_release
    (h := (set_post (with_buffer st a (snprintf size pieces)) (snprintf size pieces) CStr.nil
      now mq mr).heap) (p := some a)
    (fun c hc => by
      injection hc with hc
      subst hc
      exact ⟨_, buffer_survives_set hwf ha _ CStr.nil now mq mr⟩)
  unfold with_buffer at hset hfree
  simp only [run_statement, hb, hset, hfree, execute_query]
  rfl

theorem Mutation.run_eq (m : Mutation) (st : State) (now : Int) (mb mq mr : Allocator)
    (exec : CStr → Int) :
    ∃ size pieces, m.text = snprintf size pieces ∧
      m.run st now mb mq mr exec = run_statement st size pieces now mb mq mr exec := by
  cases m with
  | insert t v => exact ⟨_, _, rfl, rfl⟩
  | delete t c => exact ⟨_, _, rfl, rfl⟩
  | update t v c => exact ⟨_, _, rfl, rfl⟩

set_option maxRecDepth 100000 in
/-- C7 as stated fails: `insert_row(db, "t", "1")` whose statement
`sqlite3_exec` rejects with code 1 returns 1, not `SQLITE_OK`, and has
nevertheless stored the statement text: the table differs from the one before
the call, and a lookup of the statement hits with the empty string. -/
theorem C7_failed_statement_is_cached :
    ∃ st1, insert_row st0 kT val1 100 (alloc_at 1) (alloc_at 2) (alloc_at 3) (fun _ => 1)
        = .ok (1, st1) ∧
      (1 : Int) ≠ SQLITE_OK ∧
      st1.cache ≠ st0.cache ∧
      lookup st1 (insert_text kT val1) 100 = .ok (some CStr.nil) := by
  refine ⟨_, rfl, by decide, ?_, rfl⟩
  intro e
  have h := congrArg (fun c => (c (slot_index (insert_text kT val1))).query) e
  revert h
  decide

/-- C7 as amended: `insert_row`, `delete_row` and `update_row` call
`cache_set(statement_text, "")` before they execute the statement, whenever the
statement buffer was allocated. The state after the call is the one that
`cache_set` leaves (with the buffer freed) and the returned code is the one
`sqlite3_exec` gave, whether that is `SQLITE_OK` or an error; the state is
unchanged only when the allocation of the buffer fails, and the call then
returns `EXIT_FAILURE`. -/
theorem C7_mutations_cached_before_execution (m : Mutation) (st : State) (now : Int)
    (mb mq mr : Allocator) (exec : CStr → Int) (hwf : WF st) :
    (mb.pick st.heap = none → m.run st now mb mq mr exec = .ok (EXIT_FAILURE, st)) ∧
    (∀ a, mb.pick st.heap = some a →
      ∃ st2, cache_set (with_buffer st a m.text) m.text CStr.nil now mq mr = .ok st2 ∧
        m.run st now mb mq mr exec
          = .ok (exec m.text, { st2 with heap := release st2.heap (some a) })) := by
  obtain ⟨size, pieces, htext, hrun⟩ := m.run_eq st now mb mq mr exec
  rw [hrun, htext]
  refine ⟨fun hb => run_statement_fail size pieces now mq mr exec hb, ?_⟩
  intro a hb
  exact ⟨_, cache_set_ok (with_buffer_wf hwf (mb.fresh _ _ hb) _) _ CStr.nil now mq mr,
    run_statement_ok hwf size pieces now mq mr exec hb⟩

/-- Witness of C7 as amended: `insert_row(db, "t", "1")` on the start state with
a statement that fails with code 1. -/
theorem C7_mutations_cached_before_execution_witness :
    (((alloc_at 1).pick st0.heap = none →
      (Mutation.insert kT val1).run st0 100 (alloc_at 1) (alloc_at 2) (alloc_at 3) (fun _ => 1)
        = .ok (EXIT_FAILURE, st0)) ∧
    (∀ a, (alloc_at 1).pick st0.heap = some a →
      ∃ st2, cache_set (with_buffer st0 a (Mutation.insert kT val1).text)
          (Mutation.insert kT val1).text CStr.nil 100 (alloc_at 2) (alloc_at 3) = .ok st2 ∧
        (Mutation.insert kT val1).run st0 100 (alloc_at 1) (alloc_at 2) (alloc_at 3)
            (fun _ => 1)
          = .ok ((fun _ => 1) (Mutation.insert kT val1).text,
              { st2 with heap := release st2.heap (some a) }))) ∧
    (alloc_at 1).pick st0.heap = some 1 :=
  ⟨C7_mutations_cached_before_execution (Mutation.insert kT val1) st0 100 (alloc_at 1)
    (alloc_at 2) (alloc_at 3) (fun _ => 1) st0_wf, rfl⟩

end DbUnify
